import Mathlib

/-!
Verification of the duplicate-receipt detection core of the ee-expenses
repository (`duplicateDetection.js` service, `ocrService.js`, and the upload
workflow's duplicate gate).

JavaScript values are shallowly embedded as follows: JS numbers are modelled
as rationals (`ℚ`), JS strings as lists of UTF-16 code units (`List Nat`)
where their character content matters to the algorithms, and as Lean `String`
where they are carried through opaquely; `null`/`undefined` fields are
`Option`s; thrown exceptions are `Except` values.
-/

namespace EE

/-- Classic unit-cost Levenshtein edit distance between two lists of UTF-16
code units, written with the textbook recurrence: insertion, deletion and
substitution each cost 1, no transposition operation.  This is the
specification-side reference definition. -/
def lev : List Nat → List Nat → Nat
  | [], ys => ys.length
  | x :: xs, [] => (x :: xs).length
  | x :: xs, y :: ys =>
      if x = y then lev xs ys
      else min (lev xs ys) (min (lev xs (y :: ys)) (lev (x :: xs) ys)) + 1
termination_by xs ys => (xs.length, ys.length)
decreasing_by
  all_goals simp [Prod.lex_iff]

theorem lev_nil_left (ys : List Nat) : lev [] ys = ys.length := by
  simp [lev]

theorem lev_nil_right (xs : List Nat) : lev xs [] = xs.length := by
  cases xs <;> simp [lev]

theorem lev_cons_cons (x y : Nat) (xs ys : List Nat) :
    lev (x :: xs) (y :: ys) =
      if x = y then lev xs ys
      else min (lev xs ys) (min (lev xs (y :: ys)) (lev (x :: xs) ys)) + 1 := by
  simp [lev]

/-- Joint ±1 perturbation bounds for `lev`, proved by strong induction on the
total length: adding or removing one element at the head of either argument
changes the distance by at most one. -/
theorem lev_pack : ∀ (n : Nat) (xs ys : List Nat), xs.length + ys.length ≤ n →
    (∀ x, lev (x :: xs) ys ≤ 1 + lev xs ys) ∧
    (∀ y, lev xs (y :: ys) ≤ 1 + lev xs ys) ∧
    (∀ x, lev xs ys ≤ 1 + lev (x :: xs) ys) ∧
    (∀ y, lev xs ys ≤ 1 + lev xs (y :: ys)) := by
  intro n
  induction n with
  | zero =>
      intro xs ys h
      have hxs : xs = [] := by
        cases xs <;> simp_all
      have hys : ys = [] := by
        cases ys <;> simp_all
      subst hxs; subst hys
      refine ⟨fun x => ?_, fun y => ?_, fun x => ?_, fun y => ?_⟩ <;>
        simp [lev_nil_left, lev_nil_right]
  | succ n IH =>
      intro xs ys h
      refine ⟨fun x => ?_, fun y => ?_, fun x => ?_, fun y => ?_⟩
      · cases ys with
        | nil => simp [lev_nil_right]; omega
        | cons y ys' =>
            rw [lev_cons_cons]
            have h' : xs.length + ys'.length ≤ n := by
              simp at h; omega
            obtain ⟨p1, p2, p3, p4⟩ := IH xs ys' h'
            have q1 := p1 x
            have q2 := p2 y
            have q3 := p3 x
            have q4 := p4 y
            by_cases hxy : x = y
            · subst hxy; rw [if_pos rfl]; omega
            · rw [if_neg hxy]; omega
      · cases xs with
        | nil => simp [lev_nil_left]; omega
        | cons x xs' =>
            rw [lev_cons_cons]
            have h' : xs'.length + ys.length ≤ n := by
              simp at h; omega
            obtain ⟨p1, p2, p3, p4⟩ := IH xs' ys h'
            have q1 := p1 x
            have q2 := p2 y
            have q3 := p3 x
            have q4 := p4 y
            by_cases hxy : x = y
            · subst hxy; rw [if_pos rfl]; omega
            · rw [if_neg hxy]; omega
      · cases ys with
        | nil => simp [lev_nil_right]; omega
        | cons y ys' =>
            rw [lev_cons_cons]
            have h' : xs.length + ys'.length ≤ n := by
              simp at h; omega
            obtain ⟨p1, p2, p3, p4⟩ := IH xs ys' h'
            have q1 := p1 x
            have q2 := p2 y
            have q3 := p3 x
            have q4 := p4 y
            by_cases hxy : x = y
            · subst hxy; rw [if_pos rfl]; omega
            · rw [if_neg hxy]; omega
      · cases xs with
        | nil => simp [lev_nil_left]; omega
        | cons x xs' =>
            rw [lev_cons_cons]
            have h' : xs'.length + ys.length ≤ n := by
              simp at h; omega
            obtain ⟨p1, p2, p3, p4⟩ := IH xs' ys h'
            have q1 := p1 x
            have q2 := p2 y
            have q3 := p3 x
            have q4 := p4 y
            by_cases hxy : x = y
            · subst hxy; rw [if_pos rfl]; omega
            · rw [if_neg hxy]; omega

theorem lev_cons_le_left (x : Nat) (xs ys : List Nat) :
    lev (x :: xs) ys ≤ 1 + lev xs ys :=
  (lev_pack (xs.length + ys.length) xs ys le_rfl).1 x

theorem lev_cons_le_right (y : Nat) (xs ys : List Nat) :
    lev xs (y :: ys) ≤ 1 + lev xs ys :=
  (lev_pack (xs.length + ys.length) xs ys le_rfl).2.1 y

theorem lev_le_cons_left (x : Nat) (xs ys : List Nat) :
    lev xs ys ≤ 1 + lev (x :: xs) ys :=
  (lev_pack (xs.length + ys.length) xs ys le_rfl).2.2.1 x

theorem lev_le_cons_right (y : Nat) (xs ys : List Nat) :
    lev xs ys ≤ 1 + lev xs (y :: ys) :=
  (lev_pack (xs.length + ys.length) xs ys le_rfl).2.2.2 y

/-- Uniform (min-of-three) form of the head recurrence for `lev`. -/
theorem lev_cons_cons_min (x y : Nat) (xs ys : List Nat) :
    lev (x :: xs) (y :: ys) =
      min (1 + lev xs (y :: ys))
        (min (1 + lev (x :: xs) ys) ((if x = y then 0 else 1) + lev xs ys)) := by
  rw [lev_cons_cons]
  by_cases hxy : x = y
  · have h1 := lev_le_cons_left x xs ys
    have h2 := lev_le_cons_right y xs ys
    simp only [if_pos hxy]
    omega
  · simp only [if_neg hxy]
    omega

/-- Uniform (min-of-three) recurrence for `lev` at the tail end of both
arguments, proved by strong induction on the total length. -/
theorem lev_snoc_min : ∀ (n : Nat) (xs qs : List Nat), xs.length + qs.length ≤ n →
    ∀ c y, lev (xs ++ [c]) (qs ++ [y]) =
      min (1 + lev xs (qs ++ [y]))
        (min (1 + lev (xs ++ [c]) qs) ((if c = y then 0 else 1) + lev xs qs)) := by
  intro n
  induction n with
  | zero =>
      intro xs qs h c y
      have hxs : xs = [] := by cases xs <;> simp_all
      have hqs : qs = [] := by cases qs <;> simp_all
      subst hxs; subst hqs
      by_cases hcy : c = y <;>
        simp [lev_cons_cons, lev_nil_left, lev_nil_right, hcy]
  | succ n IH =>
      intro xs qs h c y
      match xs, qs with
      | [], [] =>
          by_cases hcy : c = y <;>
            simp [lev_cons_cons, lev_nil_left, lev_nil_right, hcy]
      | [], q :: qs' =>
          have h' : List.length ([] : List Nat) + qs'.length ≤ n := by
            simp at h ⊢; omega
          have hIH := IH [] qs' h' c y
          simp only [List.nil_append] at hIH
          simp only [List.nil_append, List.cons_append]
          rw [lev_cons_cons_min c q [] (qs' ++ [y]), lev_cons_cons_min c q [] qs', hIH]
          have l1 : lev [] (qs' ++ [y]) = qs'.length + 1 := by
            rw [lev_nil_left]; simp
          have l2 : lev [] (q :: (qs' ++ [y])) = qs'.length + 2 := by
            rw [lev_nil_left]; simp
          have l3 : lev [] qs' = qs'.length := lev_nil_left qs'
          have l4 : lev [] (q :: qs') = qs'.length + 1 := by
            rw [lev_nil_left]; simp
          by_cases hcq : c = q <;> by_cases hcy : c = y
          · simp only [if_pos hcq, if_pos hcy] at *; omega
          · simp only [if_pos hcq, if_neg hcy] at *; omega
          · simp only [if_neg hcq, if_pos hcy] at *; omega
          · simp only [if_neg hcq, if_neg hcy] at *; omega
      | x :: xs', [] =>
          have h' : xs'.length + List.length ([] : List Nat) ≤ n := by
            simp at h ⊢; omega
          have hIH := IH xs' [] h' c y
          simp only [List.nil_append] at hIH
          simp only [List.nil_append, List.cons_append]
          rw [lev_cons_cons_min x y (xs' ++ [c]) [], lev_cons_cons_min x y xs' [], hIH]
          have l1 : lev (xs' ++ [c]) [] = xs'.length + 1 := by
            rw [lev_nil_right]; simp
          have l2 : lev (x :: (xs' ++ [c])) [] = xs'.length + 2 := by
            rw [lev_nil_right]; simp
          have l3 : lev xs' [] = xs'.length := lev_nil_right xs'
          have l4 : lev (x :: xs') [] = xs'.length + 1 := by
            rw [lev_nil_right]; simp
          by_cases hxy : x = y <;> by_cases hcy : c = y
          · simp only [if_pos hxy, if_pos hcy] at *; omega
          · simp only [if_pos hxy, if_neg hcy] at *; omega
          · simp only [if_neg hxy, if_pos hcy] at *; omega
          · simp only [if_neg hxy, if_neg hcy] at *; omega
      | x :: xs', q :: qs' =>
          have hsum : xs'.length + qs'.length + 1 ≤ n := by
            simp at h; omega
          have hIH1 := IH xs' (q :: qs') (by simp; omega) c y
          have hIH2 := IH (x :: xs') qs' (by simp; omega) c y
          have hIH3 := IH xs' qs' (by omega) c y
          simp only [List.cons_append] at hIH1 hIH2 hIH3 ⊢
          rw [lev_cons_cons_min x q (xs' ++ [c]) (qs' ++ [y])]
          rw [hIH1, hIH2, hIH3]
          rw [lev_cons_cons_min x q xs' (qs' ++ [y]),
            lev_cons_cons_min x q (xs' ++ [c]) qs',
            lev_cons_cons_min x q xs' qs']
          generalize lev xs' (q :: (qs' ++ [y])) = A1
          generalize lev (xs' ++ [c]) (q :: qs') = A2
          generalize lev xs' (q :: qs') = A3
          generalize lev (x :: xs') (qs' ++ [y]) = B1
          generalize lev (x :: (xs' ++ [c])) qs' = B2
          generalize lev (x :: xs') qs' = B3
          generalize lev xs' (qs' ++ [y]) = C1
          generalize lev (xs' ++ [c]) qs' = C2
          generalize lev xs' qs' = C3
          generalize (if x = q then 0 else 1) = s
          generalize (if c = y then 0 else 1) = t
          simp only [← min_add_add_left, ← Nat.add_assoc]
          ac_rfl

/-- The distance `lev` is invariant under reversing both arguments. -/
theorem lev_reverse_aux : ∀ (n : Nat) (xs ys : List Nat), xs.length + ys.length ≤ n →
    lev xs.reverse ys.reverse = lev xs ys := by
  intro n
  induction n with
  | zero =>
      intro xs ys h
      have hxs : xs = [] := by cases xs <;> simp_all
      have hys : ys = [] := by cases ys <;> simp_all
      subst hxs; subst hys; rfl
  | succ n IH =>
      intro xs ys h
      match xs, ys with
      | [], ys => simp [lev_nil_left]
      | x :: xs', [] => simp [lev_nil_right]
      | x :: xs', y :: ys' =>
          rw [List.reverse_cons, List.reverse_cons]
          rw [lev_snoc_min (xs'.reverse.length + ys'.reverse.length)
            xs'.reverse ys'.reverse le_rfl x y]
          rw [← List.reverse_cons y ys', ← List.reverse_cons x xs']
          have h1 : xs'.length + (y :: ys').length ≤ n := by simp at h ⊢; omega
          have h2 : (x :: xs').length + ys'.length ≤ n := by simp at h ⊢; omega
          have h3 : xs'.length + ys'.length ≤ n := by simp at h ⊢; omega
          rw [IH xs' (y :: ys') h1, IH (x :: xs') ys' h2, IH xs' ys' h3]
          rw [lev_cons_cons_min]

theorem lev_reverse (xs ys : List Nat) : lev xs.reverse ys.reverse = lev xs ys :=
  lev_reverse_aux (xs.length + ys.length) xs ys le_rfl

/-- Textbook (if-then-else) form of the recurrence for `lev` at the tail end
of both arguments. -/
theorem lev_snoc (xs qs : List Nat) (c y : Nat) :
    lev (xs ++ [c]) (qs ++ [y]) =
      if c = y then lev xs qs
      else min (lev xs qs) (min (lev xs (qs ++ [y])) (lev (xs ++ [c]) qs)) + 1 := by
  have h0 : lev (xs ++ [c]) (qs ++ [y]) = lev (c :: xs.reverse) (y :: qs.reverse) := by
    rw [← lev_reverse (c :: xs.reverse) (y :: qs.reverse)]
    simp [List.reverse_cons, List.reverse_reverse]
  rw [h0, lev_cons_cons]
  have e1 : lev xs.reverse qs.reverse = lev xs qs := lev_reverse xs qs
  have e2 : lev xs.reverse (y :: qs.reverse) = lev xs (qs ++ [y]) := by
    rw [← lev_reverse xs (qs ++ [y])]
    simp [List.reverse_append]
  have e3 : lev (c :: xs.reverse) qs.reverse = lev (xs ++ [c]) qs := by
    rw [← lev_reverse (xs ++ [c]) qs]
    simp [List.reverse_append]
  rw [e1, e2, e3]

/-- The distance `lev` is symmetric in its two arguments. -/
theorem lev_comm_aux : ∀ (n : Nat) (xs ys : List Nat), xs.length + ys.length ≤ n →
    lev xs ys = lev ys xs := by
  intro n
  induction n with
  | zero =>
      intro xs ys h
      have hxs : xs = [] := by cases xs <;> simp_all
      have hys : ys = [] := by cases ys <;> simp_all
      subst hxs; subst hys; rfl
  | succ n IH =>
      intro xs ys h
      match xs, ys with
      | [], ys => simp [lev_nil_left, lev_nil_right]
      | x :: xs', [] => simp [lev_nil_left, lev_nil_right]
      | x :: xs', y :: ys' =>
          rw [lev_cons_cons, lev_cons_cons]
          have h1 : xs'.length + ys'.length ≤ n := by simp at h; omega
          have h2 : xs'.length + (y :: ys').length ≤ n := by simp at h ⊢; omega
          have h3 : (x :: xs').length + ys'.length ≤ n := by simp at h ⊢; omega
          have e1 := IH xs' ys' h1
          have e2 := IH xs' (y :: ys') h2
          have e3 := IH (x :: xs') ys' h3
          by_cases hxy : x = y
          · simp [hxy, e1]
          · have hyx : ¬ y = x := fun hc => hxy hc.symm
            simp only [if_neg hxy, if_neg hyx]
            rw [e1, e2, e3]
            omega

theorem lev_comm (xs ys : List Nat) : lev xs ys = lev ys xs :=
  lev_comm_aux (xs.length + ys.length) xs ys le_rfl

/-- The Levenshtein distance never exceeds the length of the longer list. -/
theorem lev_le_max : ∀ (xs ys : List Nat), lev xs ys ≤ max xs.length ys.length := by
  intro xs
  induction xs with
  | nil => intro ys; simp [lev_nil_left]
  | cons x xs' IH =>
      intro ys
      cases ys with
      | nil => simp [lev_nil_right]
      | cons y ys' =>
          rw [lev_cons_cons]
          have hI := IH ys'
          by_cases hxy : x = y
          · simp only [if_pos hxy, List.length_cons]
            omega
          · simp only [if_neg hxy, List.length_cons]
            omega

/-- One pass of the inner loop (`j = 1 .. longer.length`) of the dynamic
program in `stringSimilarity` (`duplicateDetection.js` lines 27-38), for a
fixed character `c = shorter[i-1]`.  The first argument list is the remaining
characters of `longer` (from position `j-1` on), the second is the
corresponding slice `costs[j-1 ..]` of the cost array, and the last argument
is the current `lastValue`.  Each step reads `costs[j-1]` and `costs[j]`,
computes `newValue` (` = costs[j-1]` when the characters agree, otherwise
`min(min(costs[j-1], lastValue), costs[j]) + 1`), writes `lastValue` into
`costs[j-1]` (the emitted head) and continues with `newValue` as the new
`lastValue`.  The trailing `[last]` models the write
`costs[longer.length] = lastValue` after the inner loop. -/
def levRowGo (c : Nat) : List Nat → List Nat → Nat → List Nat
  | y :: ys, pd :: p :: ps, last =>
      last :: levRowGo c ys (p :: ps) (if c = y then pd else min (min pd last) p + 1)
  | _, _, last => [last]

/-- The outer loop (`i = 1 .. shorter.length`) of the dynamic program in
`stringSimilarity`: folds `levRowGo` over the characters of the shorter
string, threading the cost row and the row index `i`. -/
def levRows (longer : List Nat) : List Nat → List Nat → Nat → List Nat
  | [], prev, _ => prev
  | ch :: cs, prev, i => levRows longer cs (levRowGo ch longer prev (i + 1)) (i + 1)

/-- The full dynamic program of `stringSimilarity` (lines 24-40): the `i = 0`
iteration initialises `costs[j] = j` for `j = 0 .. longer.length` and then
executes the unguarded assignment `costs[longer.length] = lastValue` with
`lastValue = 0`, which overwrites the final entry of row 0 with `0`; the
remaining rows are computed by `levRows`, and the returned value is
`costs[longer.length]`. -/
def levDP (shorter longer : List Nat) : Nat :=
  (levRows longer shorter ((List.range (longer.length + 1)).set longer.length 0) 0).getD
    longer.length 0

/-- The slice of the true cost row for prefix `xs` of the shorter string,
covering the columns of `rest` (a suffix of the longer string preceded by
`d`), excluding the final column. -/
def rowSeg (xs d rest : List Nat) : List Nat :=
  (List.range rest.length).map (fun j => lev xs (d ++ rest.take j))

theorem rowSeg_nil (xs d : List Nat) : rowSeg xs d [] = [] := by
  simp [rowSeg]

theorem rowSeg_cons (xs d : List Nat) (y : Nat) (rest : List Nat) :
    rowSeg xs d (y :: rest) = lev xs d :: rowSeg xs (d ++ [y]) rest := by
  unfold rowSeg
  rw [List.length_cons, List.range_succ_eq_map, List.map_cons, List.map_map]
  congr 1
  · simp
  · apply List.map_congr_left
    intro j _
    simp [List.take_succ_cons, List.append_assoc]

theorem rowSeg_length (xs d rest : List Nat) : (rowSeg xs d rest).length = rest.length := by
  simp [rowSeg]

/-- Behaviour of one `levRowGo` pass on a row whose entries are the true
prefix distances except possibly the final one.  The final entry `e` of the
input row may be corrupted (this is how the unguarded
`costs[longer.length] = lastValue` write propagates); the output row again
has true entries in all but the final position, and the new final entry `e'`
stays below the true value and above `min(true value, i)` where `i` is the
number of processed characters of the shorter string. -/
theorem go_spec : ∀ (rest : List Nat), rest ≠ [] → ∀ (d : List Nat) (xs : List Nat) (c e : Nat),
    e ≤ lev xs (d ++ rest) → min (lev xs (d ++ rest)) xs.length ≤ e →
    ∃ e', levRowGo c rest (rowSeg xs d rest ++ [e]) (lev (xs ++ [c]) d) =
        rowSeg (xs ++ [c]) d rest ++ [e'] ∧
      e' ≤ lev (xs ++ [c]) (d ++ rest) ∧
      min (lev (xs ++ [c]) (d ++ rest)) (xs.length + 1) ≤ e' := by
  intro rest
  induction rest with
  | nil => intro hne; exact absurd rfl hne
  | cons y rest' IHr =>
      intro _ d xs c e hub hlb
      cases rest' with
      | nil =>
          rw [rowSeg_cons, rowSeg_nil, rowSeg_cons, rowSeg_nil]
          refine ⟨if c = y then lev xs d
            else min (min (lev xs d) (lev (xs ++ [c]) d)) e + 1, rfl, ?_, ?_⟩ <;>
          · have hs := lev_snoc xs d c y
            have h1 : (xs ++ [c]).length = xs.length + 1 := by simp
            by_cases hcy : c = y
            · rw [if_pos hcy] at hs ⊢; omega
            · rw [if_neg hcy] at hs ⊢; omega
      | cons z rs =>
          have hconsapp : d ++ y :: (z :: rs) = (d ++ [y]) ++ (z :: rs) := by
            simp
          rw [hconsapp] at hub hlb
          obtain ⟨e', heq, hub', hlb'⟩ :=
            IHr (by simp) (d ++ [y]) xs c e hub hlb
          have hnv : (if c = y then lev xs d
              else min (min (lev xs d) (lev (xs ++ [c]) d)) (lev xs (d ++ [y])) + 1) =
              lev (xs ++ [c]) (d ++ [y]) := by
            have hs := lev_snoc xs d c y
            by_cases hcy : c = y
            · rw [if_pos hcy] at hs ⊢; omega
            · rw [if_neg hcy] at hs ⊢; omega
          refine ⟨e', ?_, ?_, ?_⟩
          · rw [rowSeg_cons, rowSeg_cons xs (d ++ [y]) z rs]
            rw [rowSeg_cons, rowSeg_cons (xs ++ [c]) (d ++ [y]) z rs]
            rw [rowSeg_cons xs (d ++ [y]) z rs] at heq
            rw [rowSeg_cons (xs ++ [c]) (d ++ [y]) z rs] at heq
            show levRowGo c (y :: z :: rs)
                (lev xs d :: lev xs (d ++ [y]) ::
                  (rowSeg xs (d ++ [y] ++ [z]) rs ++ [e]))
                (lev (xs ++ [c]) d) = _
            rw [levRowGo]
            rw [hnv]
            simp only [List.cons_append] at heq
            rw [heq]
            simp
          · rw [hconsapp]; exact hub'
          · rw [hconsapp]; exact hlb'

/-- Behaviour of the outer loop `levRows` on a row of true prefix distances
with a possibly-corrupted final entry. -/
theorem rows_spec : ∀ (cs : List Nat) (longer : List Nat), longer ≠ [] →
    ∀ (xs : List Nat) (e : Nat),
    e ≤ lev xs longer → min (lev xs longer) xs.length ≤ e →
    ∃ e', levRows longer cs (rowSeg xs [] longer ++ [e]) xs.length =
        rowSeg (xs ++ cs) [] longer ++ [e'] ∧
      e' ≤ lev (xs ++ cs) longer ∧
      min (lev (xs ++ cs) longer) (xs.length + cs.length) ≤ e' := by
  intro cs
  induction cs with
  | nil =>
      intro longer _ xs e hub hlb
      exact ⟨e, by simp [levRows], by simpa using hub, by simpa using hlb⟩
  | cons c cs' IH =>
      intro longer hne xs e hub hlb
      have hnilapp : ([] : List Nat) ++ longer = longer := by simp
      obtain ⟨e1, hgo, hub1, hlb1⟩ := go_spec longer hne [] xs c e
        (by rw [hnilapp]; exact hub) (by rw [hnilapp]; exact hlb)
      rw [hnilapp] at hub1 hlb1
      have hlen1 : (xs ++ [c]).length = xs.length + 1 := by simp
      obtain ⟨e', hrows, hub', hlb'⟩ := IH longer hne (xs ++ [c]) e1 hub1
        (by rw [hlen1]; omega)
      rw [hlen1] at hrows hlb'
      refine ⟨e', ?_, ?_, ?_⟩
      · rw [levRows]
        have hlast : lev (xs ++ [c]) [] = xs.length + 1 := by
          rw [lev_nil_right]; simp
        rw [← hlast] at hrows ⊢
        rw [hgo, hrows]
        simp [List.append_assoc]
      · simpa [List.append_assoc] using hub'
      · have : xs ++ c :: cs' = (xs ++ [c]) ++ cs' := by simp
        rw [this]
        simp only [List.length_append, List.length_cons, List.length_singleton] at hlb' ⊢
        omega

theorem set_length_append (as : List Nat) (b v : Nat) :
    (as ++ [b]).set as.length v = as ++ [v] := by
  induction as with
  | nil => rfl
  | cons a as IH => simp [List.set, IH]

theorem getD_length_append (as : List Nat) (b d : Nat) :
    (as ++ [b]).getD as.length d = b := by
  induction as with
  | nil => rfl
  | cons a as IH => exact IH

theorem initRow_eq (t : List Nat) :
    (List.range (t.length + 1)).set t.length 0 = rowSeg [] [] t ++ [0] := by
  have h1 : rowSeg [] [] t = List.range t.length := by
    unfold rowSeg
    conv_rhs => rw [← List.map_id (List.range t.length)]
    apply List.map_congr_left
    intro j hj
    rw [List.mem_range] at hj
    simp [lev_nil_left, List.length_take, Nat.min_eq_left (Nat.le_of_lt hj)]
  have h2 := set_length_append (List.range t.length) t.length 0
  rw [List.length_range] at h2
  rw [List.range_succ, h2, h1]

/-- The dynamic program of `stringSimilarity` never exceeds the true
Levenshtein distance, and never falls below `min(distance, shorter.length)`:
the unguarded final write of row 0 can only lower the result, and only when
the shorter string is strictly shorter than the true distance allows. -/
theorem levDP_bounds (s t : List Nat) (hne : t ≠ []) :
    levDP s t ≤ lev s t ∧ min (lev s t) s.length ≤ levDP s t := by
  obtain ⟨e', hrows, hub, hlb⟩ := rows_spec s t hne [] 0 (Nat.zero_le _)
    (by simp)
  simp only [List.nil_append, List.length_nil, Nat.zero_add] at hrows hub hlb
  unfold levDP
  rw [initRow_eq, hrows]
  rw [← rowSeg_length s [] t, getD_length_append]
  exact ⟨hub, hlb⟩

/-- On inputs of equal length the dynamic program agrees with the true
Levenshtein distance (the corrupted final column reconverges by the time the
last row is reached). -/
theorem levDP_eq_lev_of_length_eq (s t : List Nat) (hlen : s.length = t.length)
    (hne : t ≠ []) : levDP s t = lev s t := by
  obtain ⟨hub, hlb⟩ := levDP_bounds s t hne
  have hmax := lev_le_max s t
  omega

/-- The case mapping applied by `String.prototype.toLowerCase` to a UTF-16
code unit, modelled on the ASCII range `A`-`Z`; code points outside this range
with Unicode lowercase mappings do not occur in any input considered here and
are left fixed. -/
def jsToLower (c : Nat) : Nat := if 65 ≤ c ∧ c ≤ 90 then c + 32 else c

/-- The white-space and line-terminator code units stripped by
`String.prototype.trim`. -/
def isJsSpace (c : Nat) : Bool :=
  decide ((9 ≤ c ∧ c ≤ 13) ∨ c = 32 ∨ c = 160 ∨ c = 5760 ∨ (8192 ≤ c ∧ c ≤ 8202) ∨
    c = 8232 ∨ c = 8233 ∨ c = 8239 ∨ c = 8287 ∨ c = 12288 ∨ c = 65279)

/-- Model of `String.prototype.trim`: removes white space from both ends. -/
def jsTrim (s : List Nat) : List Nat :=
  ((s.dropWhile isJsSpace).reverse.dropWhile isJsSpace).reverse

/-- The normalisation `(str || '').toLowerCase().trim()` performed by
`stringSimilarity` on each argument (`duplicateDetection.js` lines 14-15).
Inputs are JS strings as lists of UTF-16 code units; the `|| ''` null guard is
subsumed by callers passing a (possibly empty) string. -/
def jsNormalize (s : List Nat) : List Nat := jsTrim (s.map jsToLower)

/-- Embedding of `stringSimilarity` (`duplicateDetection.js` lines 13-43): normalise both
inputs; equal strings give `1.0`; if either is empty give `0.0`; otherwise
run the dynamic program `levDP` on (shorter, longer) — where the longer
string is `s1` exactly when `s1.length > s2.length` — and return
`(longer.length - costs[longer.length]) / longer.length`.  JS numbers are
modelled as rationals. -/
def stringSimilarity (str1 str2 : List Nat) : ℚ :=
  if jsNormalize str1 = jsNormalize str2 then 1
  else if (jsNormalize str1).length = 0 ∨ (jsNormalize str2).length = 0 then 0
  else if (jsNormalize str2).length < (jsNormalize str1).length then
    (((jsNormalize str1).length : ℚ) - (levDP (jsNormalize str2) (jsNormalize str1) : ℚ)) /
      ((jsNormalize str1).length : ℚ)
  else
    (((jsNormalize str2).length : ℚ) - (levDP (jsNormalize str1) (jsNormalize str2) : ℚ)) /
      ((jsNormalize str2).length : ℚ)

theorem stringSimilarity_self (a : List Nat) : stringSimilarity a a = 1 := by
  simp [stringSimilarity]

theorem stringSimilarity_zero_of_empty (a b : List Nat)
    (h1 : jsNormalize a = [] ∨ jsNormalize b = [])
    (h2 : jsNormalize a ≠ jsNormalize b) : stringSimilarity a b = 0 := by
  unfold stringSimilarity
  rw [if_neg h2, if_pos]
  rcases h1 with h | h
  · exact Or.inl (by simp [h])
  · exact Or.inr (by simp [h])

theorem stringSimilarity_comm (a b : List Nat) :
    stringSimilarity a b = stringSimilarity b a := by
  unfold stringSimilarity
  by_cases h12 : jsNormalize a = jsNormalize b
  · rw [if_pos h12, if_pos h12.symm]
  · have h21 : jsNormalize b ≠ jsNormalize a := fun hc => h12 hc.symm
    rw [if_neg h12, if_neg h21]
    by_cases hz : (jsNormalize a).length = 0 ∨ (jsNormalize b).length = 0
    · rw [if_pos hz, if_pos hz.symm]
    · have hz' : ¬ ((jsNormalize b).length = 0 ∨ (jsNormalize a).length = 0) :=
        fun hc => hz hc.symm
      rw [if_neg hz, if_neg hz']
      rcases Nat.lt_trichotomy (jsNormalize b).length (jsNormalize a).length with hlt | heq | hgt
      · rw [if_pos hlt, if_neg (Nat.lt_asymm hlt)]
      · rw [if_neg (by omega), if_neg (by omega)]
        have hbne : jsNormalize b ≠ [] := by
          intro hc
          exact hz (Or.inr (by simp [hc]))
        have hane : jsNormalize a ≠ [] := by
          intro hc
          exact hz (Or.inl (by simp [hc]))
        rw [levDP_eq_lev_of_length_eq _ _ heq.symm hbne,
          levDP_eq_lev_of_length_eq _ _ heq hane,
          lev_comm, heq]
      · rw [if_neg (Nat.lt_asymm hgt), if_pos hgt]

theorem stringSimilarity_mem_unit (a b : List Nat) :
    0 ≤ stringSimilarity a b ∧ stringSimilarity a b ≤ 1 := by
  unfold stringSimilarity
  by_cases h12 : jsNormalize a = jsNormalize b
  · rw [if_pos h12]; norm_num
  · rw [if_neg h12]
    by_cases hz : (jsNormalize a).length = 0 ∨ (jsNormalize b).length = 0
    · rw [if_pos hz]; norm_num
    · rw [if_neg hz]
      push_neg at hz
      by_cases hlt : (jsNormalize b).length < (jsNormalize a).length
      · rw [if_pos hlt]
        have hne : jsNormalize a ≠ [] := by
          intro hc; exact hz.1 (by simp [hc])
        have hd := (levDP_bounds (jsNormalize b) (jsNormalize a) hne).1
        have hm := lev_le_max (jsNormalize b) (jsNormalize a)
        have hdle : levDP (jsNormalize b) (jsNormalize a) ≤ (jsNormalize a).length := by
          omega
        have hpos : (0 : ℚ) < ((jsNormalize a).length : ℚ) := by
          exact_mod_cast Nat.pos_of_ne_zero hz.1
        constructor
        · apply div_nonneg _ (le_of_lt hpos)
          have : ((levDP (jsNormalize b) (jsNormalize a) : ℚ)) ≤
              ((jsNormalize a).length : ℚ) := by exact_mod_cast hdle
          linarith
        · rw [div_le_one hpos]
          have : (0 : ℚ) ≤ (levDP (jsNormalize b) (jsNormalize a) : ℚ) := by positivity
          linarith
      · rw [if_neg hlt]
        have hne : jsNormalize b ≠ [] := by
          intro hc; exact hz.2 (by simp [hc])
        have hd := (levDP_bounds (jsNormalize a) (jsNormalize b) hne).1
        have hm := lev_le_max (jsNormalize a) (jsNormalize b)
        have hdle : levDP (jsNormalize a) (jsNormalize b) ≤ (jsNormalize b).length := by
          omega
        have hpos : (0 : ℚ) < ((jsNormalize b).length : ℚ) := by
          exact_mod_cast Nat.pos_of_ne_zero hz.2
        constructor
        · apply div_nonneg _ (le_of_lt hpos)
          have : ((levDP (jsNormalize a) (jsNormalize b) : ℚ)) ≤
              ((jsNormalize b).length : ℚ) := by exact_mod_cast hdle
          linarith
        · rw [div_le_one hpos]
          have : (0 : ℚ) ≤ (levDP (jsNormalize a) (jsNormalize b) : ℚ) := by positivity
          linarith

/-- Model of `Math.round(q)`, which rounds half toward positive infinity. -/
def jsRound (q : ℚ) : ℤ := ⌊q + 1 / 2⌋

/-- Embedding of `normalizeAmount` (`duplicateDetection.js` lines 48-51):
`Math.round(parseFloat(amount || 0) * 100) / 100`; an absent (`null` /
`undefined`) amount is coerced to `0` by `|| 0`, and `parseFloat` of a number
is the number itself. -/
def normalizeAmount (amount : Option ℚ) : ℚ := (jsRound (amount.getD 0 * 100) : ℚ) / 100

/-- Decides whether a character is an ASCII digit. -/
def isDigitChar (c : Char) : Bool := decide (48 ≤ c.toNat ∧ c.toNat ≤ 57)

/-- Numeric value of an ASCII digit character. -/
def digitVal (c : Char) : Nat := c.toNat - 48

/-- Modelled JS built-in behaviour used by `normalizeDate`:
`new Date(s).toISOString().split('T')[0]` restricted to ISO `YYYY-MM-DD`
strings, which parse as UTC midnight and re-serialise to themselves; every
other format is treated as unparseable (an invalid date whose `toISOString`
throws, caught by `normalizeDate`). -/
def jsDateCanon (s : String) : Option String :=
  match s.toList with
  | [y1, y2, y3, y4, h1, m1, m2, h2, d1, d2] =>
      if isDigitChar y1 && isDigitChar y2 && isDigitChar y3 && isDigitChar y4 &&
          (h1 == '-') && isDigitChar m1 && isDigitChar m2 && (h2 == '-') &&
          isDigitChar d1 && isDigitChar d2 &&
          decide (1 ≤ digitVal m1 * 10 + digitVal m2 ∧ digitVal m1 * 10 + digitVal m2 ≤ 12) &&
          decide (1 ≤ digitVal d1 * 10 + digitVal d2 ∧ digitVal d1 * 10 + digitVal d2 ≤ 31) then
        some s
      else none
  | _ => none

/-- Embedding of `normalizeDate` (`duplicateDetection.js` lines 56-64): a falsy date string
(`null`, `undefined`, `""`) yields `null`; otherwise the date is parsed and
re-serialised as `YYYY-MM-DD`, with parse failures caught and turned into
`null`. -/
def normalizeDate (dateStr : Option String) : Option String :=
  match dateStr with
  | none => none
  | some s => if s = "" then none else jsDateCanon s

/-- The OCR payload fields of a stored receipt that the matcher reads
(`ocr_data`): amount (JS number), date (string), merchant (string as UTF-16
code units). -/
structure OcrData where
  amount : Option ℚ
  date : Option String
  merchant : Option (List Nat)
  deriving DecidableEq

/-- The empty object `{}` substituted by `existing.ocr_data || {}`. -/
def emptyOcr : OcrData := ⟨none, none, none⟩

/-- A row of the `receipts` table as read by `findPotentialDuplicates`
(fields actually used by the loop). -/
structure ReceiptRow where
  id : Nat
  user_id : Nat
  ocr_data : Option OcrData
  duplicate_of : Option Nat
  uploaded_at : Nat
  status : String
  file_path : String
  deriving DecidableEq

/-- The new receipt's OCR data (`newReceipt` argument). -/
structure NewReceipt where
  amount : Option ℚ
  date : Option String
  merchant : Option (List Nat)
  deriving DecidableEq

/-- An element of the array returned by `findPotentialDuplicates`
(lines 131-141). -/
structure MatchResult where
  id : Nat
  userId : Nat
  confidence : Nat
  reasons : List String
  merchantSimilarity : ℚ
  ocrData : OcrData
  uploadedAt : Nat
  status : String
  filePath : String
  deriving DecidableEq

/-- The fallback `existing.ocr_data || (empty object)` of line 96. -/
def existingOcrOf (row : ReceiptRow) : OcrData := row.ocr_data.getD emptyOcr

/-- The precomputation `(newReceipt.merchant || '').toLowerCase()` of line 77. -/
def newMerchantOf (nr : NewReceipt) : List Nat := (nr.merchant.getD []).map jsToLower

/-- The precomputation `(existingOcr.merchant || '').toLowerCase()` of line 102. -/
def existingMerchantOf (row : ReceiptRow) : List Nat :=
  ((existingOcrOf row).merchant.getD []).map jsToLower

/-- The signal `amountMatch` (line 105): absolute difference of the normalised amounts
below `0.01`. -/
def amountMatch (nr : NewReceipt) (row : ReceiptRow) : Bool :=
  decide (|normalizeAmount nr.amount - normalizeAmount (existingOcrOf row).amount| < 1 / 100)

/-- The signal `dateMatch` (line 106): both canonical dates present and equal. -/
def dateMatch (nr : NewReceipt) (row : ReceiptRow) : Bool :=
  match normalizeDate nr.date, normalizeDate (existingOcrOf row).date with
  | some d1, some d2 => d1 == d2
  | _, _ => false

/-- The value `merchantSimilarity` of line 107. -/
def merchantSimilarityOf (nr : NewReceipt) (row : ReceiptRow) : ℚ :=
  stringSimilarity (newMerchantOf nr) (existingMerchantOf row)

/-- The signal `merchantMatch` (line 108): similarity strictly above `0.7`. -/
def merchantMatch (nr : NewReceipt) (row : ReceiptRow) : Bool :=
  decide ((7 : ℚ) / 10 < merchantSimilarityOf nr row)

/-- The aggregate `confidence` accumulated by lines 111-127. -/
def matchConfidence (nr : NewReceipt) (row : ReceiptRow) : Nat :=
  (if amountMatch nr row then 40 else 0) + (if dateMatch nr row then 35 else 0) +
    (if merchantMatch nr row then 25 else 0)

/-- The `reasons` list accumulated by lines 111-127. -/
def matchReasons (nr : NewReceipt) (row : ReceiptRow) : List String :=
  (if amountMatch nr row then ["Same amount"] else []) ++
    (if dateMatch nr row then ["Same date"] else []) ++
    (if merchantMatch nr row then
      [if (9 : ℚ) / 10 < merchantSimilarityOf nr row then "Same merchant"
       else "Similar merchant"]
     else [])

/-- The object pushed onto `duplicates` for a qualifying row (lines 131-141). -/
def mkMatchResult (nr : NewReceipt) (row : ReceiptRow) : MatchResult :=
  { id := row.id
    userId := row.user_id
    confidence := matchConfidence nr row
    reasons := matchReasons nr row
    merchantSimilarity := merchantSimilarityOf nr row
    ocrData := existingOcrOf row
    uploadedAt := row.uploaded_at
    status := row.status
    filePath := row.file_path }

/-- The scoring loop of `findPotentialDuplicates` (lines 95-143): skip rows
already marked `duplicate_of` another receipt, score the rest, and keep those
with confidence at least 60. -/
def collectDuplicates (nr : NewReceipt) : List ReceiptRow → List MatchResult
  | [] => []
  | row :: rows =>
      if row.duplicate_of ≠ none then collectDuplicates nr rows
      else if 60 ≤ matchConfidence nr row then
        mkMatchResult nr row :: collectDuplicates nr rows
      else collectDuplicates nr rows

/-- Stable insertion into a descending-by-confidence list: the element goes
after every strictly more confident element and before any equally confident
one. -/
def insertDesc (m : MatchResult) : List MatchResult → List MatchResult
  | [] => [m]
  | x :: xs => if m.confidence < x.confidence then x :: insertDesc m xs else m :: x :: xs

/-- The sort `duplicates.sort((a, b) => b.confidence - a.confidence)` of line 146:
`Array.prototype.sort` is a stable sort, so with this comparator it produces
the unique stable descending-by-confidence permutation, modelled as stable
insertion sort. -/
def sortByConfidenceDesc (l : List MatchResult) : List MatchResult :=
  l.foldr insertDesc []

/-- Embedding of `findPotentialDuplicates` (`duplicateDetection.js` lines 73-147) from the
point where the database has answered: `rows` is `result.rows`, the
amount-range-filtered window supplied by the query on lines 83-93. -/
def findPotentialDuplicates (nr : NewReceipt) (rows : List ReceiptRow) : List MatchResult :=
  sortByConfidenceDesc (collectDuplicates nr rows)

theorem mem_insertDesc (a m : MatchResult) : ∀ l : List MatchResult,
    a ∈ insertDesc m l ↔ a = m ∨ a ∈ l := by
  intro l
  induction l with
  | nil => simp [insertDesc]
  | cons x xs IH =>
      rw [insertDesc]
      by_cases hc : m.confidence < x.confidence
      · rw [if_pos hc]
        simp only [List.mem_cons, IH]
        tauto
      · rw [if_neg hc]
        simp

theorem mem_sortByConfidenceDesc (a : MatchResult) : ∀ l : List MatchResult,
    a ∈ sortByConfidenceDesc l ↔ a ∈ l := by
  intro l
  induction l with
  | nil => simp [sortByConfidenceDesc]
  | cons x xs IH =>
      show a ∈ insertDesc x (sortByConfidenceDesc xs) ↔ _
      rw [mem_insertDesc, IH]
      simp

theorem chain'_insertDesc (m : MatchResult) :
    ∀ l : List MatchResult,
    List.Chain' (fun a b => b.confidence ≤ a.confidence) l →
    List.Chain' (fun a b => b.confidence ≤ a.confidence) (insertDesc m l) := by
  intro l
  induction l with
  | nil => intro _; simp [insertDesc]
  | cons x xs IH =>
      intro hch
      rw [List.chain'_cons'] at hch
      rw [insertDesc]
      by_cases hc : m.confidence < x.confidence
      · rw [if_pos hc]
        rw [List.chain'_cons']
        refine ⟨?_, IH hch.2⟩
        intro b hb
        cases xs with
        | nil =>
            simp [insertDesc] at hb
            subst hb
            omega
        | cons x' xs' =>
            rw [insertDesc] at hb
            by_cases hc' : m.confidence < x'.confidence
            · rw [if_pos hc'] at hb
              simp at hb
              subst hb
              exact hch.1 x' (by simp)
            · rw [if_neg hc'] at hb
              simp at hb
              subst hb
              omega
      · rw [if_neg hc]
        rw [List.chain'_cons']
        refine ⟨?_, List.chain'_cons'.mpr hch⟩
        intro b hb
        simp at hb
        subst hb
        omega

theorem chain'_sortByConfidenceDesc (l : List MatchResult) :
    List.Chain' (fun a b => b.confidence ≤ a.confidence) (sortByConfidenceDesc l) := by
  induction l with
  | nil => simp [sortByConfidenceDesc]
  | cons x xs IH => exact chain'_insertDesc x _ IH

theorem filter_insertDesc (m : MatchResult) (c : Nat) :
    ∀ l : List MatchResult,
    (insertDesc m l).filter (fun x => x.confidence == c) =
      if m.confidence = c then m :: l.filter (fun x => x.confidence == c)
      else l.filter (fun x => x.confidence == c) := by
  intro l
  induction l with
  | nil =>
      by_cases hm : m.confidence = c
      · have hb : (m.confidence == c) = true := by simp [hm]
        simp [insertDesc, List.filter, hm, hb]
      · have hb : (m.confidence == c) = false := by simp [hm]
        simp [insertDesc, List.filter, hm, hb]
  | cons x xs IH =>
      rw [insertDesc]
      by_cases hc : m.confidence < x.confidence
      · rw [if_pos hc]
        by_cases hm : m.confidence = c
        · have hx : ¬ x.confidence = c := by omega
          rw [if_pos hm]
          simp only [List.filter_cons, IH, if_pos hm]
          have hxb : (x.confidence == c) = false := by
            simp [hx]
          rw [hxb]
          simp
        · rw [if_neg hm]
          simp only [List.filter_cons, IH, if_neg hm]
      · rw [if_neg hc]
        by_cases hm : m.confidence = c
        · rw [if_pos hm]
          simp only [List.filter_cons]
          have hmb : (m.confidence == c) = true := by simp [hm]
          rw [hmb]
          simp
        · rw [if_neg hm]
          simp only [List.filter_cons]
          have hmb : (m.confidence == c) = false := by simp [hm]
          rw [hmb]
          simp

theorem filter_sortByConfidenceDesc (c : Nat) (l : List MatchResult) :
    (sortByConfidenceDesc l).filter (fun x => x.confidence == c) =
      l.filter (fun x => x.confidence == c) := by
  induction l with
  | nil => rfl
  | cons x xs IH =>
      show (insertDesc x (sortByConfidenceDesc xs)).filter _ = _
      rw [filter_insertDesc, IH, List.filter_cons]
      by_cases hx : x.confidence = c
      · have : (x.confidence == c) = true := by simp [hx]
        rw [if_pos hx, this]
        simp
      · have : (x.confidence == c) = false := by simp [hx]
        rw [if_neg hx, this]
        simp

theorem mem_collectDuplicates (nr : NewReceipt) (m : MatchResult) :
    ∀ rows : List ReceiptRow,
    m ∈ collectDuplicates nr rows ↔
      ∃ row ∈ rows, row.duplicate_of = none ∧ 60 ≤ matchConfidence nr row ∧
        m = mkMatchResult nr row := by
  intro rows
  induction rows with
  | nil => simp [collectDuplicates]
  | cons row rows IH =>
      rw [collectDuplicates]
      by_cases hdup : row.duplicate_of ≠ none
      · rw [if_pos hdup]
        rw [IH]
        constructor
        · rintro ⟨r, hr, hprops⟩
          exact ⟨r, List.mem_cons_of_mem _ hr, hprops⟩
        · rintro ⟨r, hr, hnone, hconf, hm⟩
          rcases List.mem_cons.mp hr with heq | hmem
          · exact absurd (heq ▸ hnone) hdup
          · exact ⟨r, hmem, hnone, hconf, hm⟩
      · rw [if_neg hdup]
        push_neg at hdup
        by_cases hconf : 60 ≤ matchConfidence nr row
        · rw [if_pos hconf]
          simp only [List.mem_cons, IH]
          constructor
          · rintro (heq | ⟨r, hr, hprops⟩)
            · exact ⟨row, Or.inl rfl, hdup, hconf, heq⟩
            · exact ⟨r, Or.inr hr, hprops⟩
          · rintro ⟨r, hr | hr, hnone, hc, hm⟩
            · exact Or.inl (hr ▸ hm)
            · exact Or.inr ⟨r, hr, hnone, hc, hm⟩
        · rw [if_neg hconf]
          rw [IH]
          constructor
          · rintro ⟨r, hr, hprops⟩
            exact ⟨r, List.mem_cons_of_mem _ hr, hprops⟩
          · rintro ⟨r, hr, hnone, hc, hm⟩
            rcases List.mem_cons.mp hr with heq | hmem
            · subst heq
              exact absurd hc hconf
            · exact ⟨r, hmem, hnone, hc, hm⟩

theorem mem_findPotentialDuplicates (nr : NewReceipt) (m : MatchResult)
    (rows : List ReceiptRow) :
    m ∈ findPotentialDuplicates nr rows ↔
      ∃ row ∈ rows, row.duplicate_of = none ∧ 60 ≤ matchConfidence nr row ∧
        m = mkMatchResult nr row := by
  unfold findPotentialDuplicates
  rw [mem_sortByConfidenceDesc, mem_collectDuplicates]

theorem confidence_of_mem_findPotentialDuplicates (nr : NewReceipt) (m : MatchResult)
    (rows : List ReceiptRow) (hm : m ∈ findPotentialDuplicates nr rows) :
    60 ≤ m.confidence := by
  obtain ⟨row, _, _, hconf, hmk⟩ := (mem_findPotentialDuplicates nr m rows).mp hm
  rw [hmk]
  exact hconf

/-- JSON values, the result type of `JSON.parse`. -/
inductive Json where
  | jnull : Json
  | jbool : Bool → Json
  | jnum : ℚ → Json
  | jstr : List Char → Json
  | jarr : List Json → Json
  | jobj : List (List Char × Json) → Json

/-- JSON insignificant white space. -/
def isWsChar (c : Char) : Bool := c.toNat = 32 ∨ c.toNat = 9 ∨ c.toNat = 10 ∨ c.toNat = 13

/-- Skips insignificant white space. -/
def skipWs (s : List Char) : List Char := s.dropWhile isWsChar

/-- Resolves a single-character JSON string escape.  `\uXXXX` escapes do not
occur in any content considered here and are treated as unsupported. -/
def unescapeChar (e : Char) : Option Char :=
  if e.toNat = 34 ∨ e.toNat = 92 ∨ e.toNat = 47 then some e
  else if e = 'b' then some (Char.ofNat 8)
  else if e = 'f' then some (Char.ofNat 12)
  else if e = 'n' then some (Char.ofNat 10)
  else if e = 'r' then some (Char.ofNat 13)
  else if e = 't' then some (Char.ofNat 9)
  else none

/-- Parses the body of a JSON string after the opening quote; returns the
decoded characters and the remainder after the closing quote. -/
def parseStringBody : List Char → Option (List Char × List Char)
  | [] => none
  | c :: rest =>
      if c.toNat = 34 then some ([], rest)
      else if c.toNat = 92 then
        match rest with
        | [] => none
        | e :: rest2 =>
            match unescapeChar e, parseStringBody rest2 with
            | some ch, some (str, r) => some (ch :: str, r)
            | _, _ => none
      else
        match parseStringBody rest with
        | some (str, r) => some (c :: str, r)
        | none => none

/-- Value of a (non-empty) run of ASCII digits. -/
def digitsToNat (ds : List Char) : Nat := ds.foldl (fun acc c => acc * 10 + (c.toNat - 48)) 0

/-- Parses an optional fraction part `.digits`. -/
def parseFracPart (s : List Char) : Option (ℚ × List Char) :=
  match s with
  | c :: rest =>
      if c = '.' then
        let fs := rest.takeWhile isDigitChar
        if fs = [] then none
        else some ((digitsToNat fs : ℚ) / (10 : ℚ) ^ fs.length, rest.drop fs.length)
      else some (0, s)
  | [] => some (0, s)

/-- Parses an optional exponent part `e[+-]digits`. -/
def parseExpPart (s : List Char) : Option (ℤ × List Char) :=
  match s with
  | c :: rest =>
      if c = 'e' ∨ c = 'E' then
        match rest with
        | c2 :: rest2 =>
            let eneg : Bool := c2 == '-'
            let s2 := if c2 = '-' ∨ c2 = '+' then rest2 else rest
            let es := s2.takeWhile isDigitChar
            if es = [] then none
            else some ((if eneg then -(digitsToNat es : ℤ) else (digitsToNat es : ℤ)),
              s2.drop es.length)
        | [] => none
      else some (0, s)
  | [] => some (0, s)

/-- Parses a JSON number. -/
def parseNumber (s : List Char) : Option (ℚ × List Char) :=
  let neg : Bool := match s with
    | c :: _ => c == '-'
    | [] => false
  let s1 := match s with
    | c :: rest => if c = '-' then rest else s
    | [] => []
  let ds := s1.takeWhile isDigitChar
  if ds = [] then none
  else
    match parseFracPart (s1.drop ds.length) with
    | none => none
    | some (fr, s3) =>
        match parseExpPart s3 with
        | none => none
        | some (ex, s4) =>
            let mag : ℚ := ((digitsToNat ds : ℚ) + fr) * (10 : ℚ) ^ ex
            some ((if neg then -mag else mag), s4)

mutual

/-- Parses one JSON value, fuel-bounded so that every function is structurally
recursive and kernel-evaluable. -/
def parseVal : Nat → List Char → Option (Json × List Char)
  | 0, _ => none
  | fuel + 1, s =>
      match skipWs s with
      | [] => none
      | c :: rest =>
          if c.toNat = 123 then
            match parseObjFields fuel rest true with
            | some (fields, r) => some (Json.jobj fields, r)
            | none => none
          else if c.toNat = 91 then
            match parseArrElems fuel rest true with
            | some (elems, r) => some (Json.jarr elems, r)
            | none => none
          else if c.toNat = 34 then
            match parseStringBody rest with
            | some (str, r) => some (Json.jstr str, r)
            | none => none
          else if c = 't' then
            match rest with
            | 'r' :: 'u' :: 'e' :: r => some (Json.jbool true, r)
            | _ => none
          else if c = 'f' then
            match rest with
            | 'a' :: 'l' :: 's' :: 'e' :: r => some (Json.jbool false, r)
            | _ => none
          else if c = 'n' then
            match rest with
            | 'u' :: 'l' :: 'l' :: r => some (Json.jnull, r)
            | _ => none
          else if c = '-' ∨ isDigitChar c then
            match parseNumber (c :: rest) with
            | some (q, r) => some (Json.jnum q, r)
            | none => none
          else none

/-- Parses the members of a JSON object after the opening brace; `first` is
true until the first member has been read. -/
def parseObjFields : Nat → List Char → Bool → Option (List (List Char × Json) × List Char)
  | 0, _, _ => none
  | fuel + 1, s, first =>
      match skipWs s with
      | [] => none
      | c :: rest =>
          if first ∧ c.toNat = 125 then some ([], rest)
          else if c.toNat = 34 then
            match parseStringBody rest with
            | none => none
            | some (key, r1) =>
                match skipWs r1 with
                | c2 :: r2 =>
                    if c2.toNat = 58 then
                      match parseVal fuel r2 with
                      | none => none
                      | some (v, r3) =>
                          match skipWs r3 with
                          | c3 :: r4 =>
                              if c3 = ',' then
                                match parseObjFields fuel r4 false with
                                | some (fields, r5) => some ((key, v) :: fields, r5)
                                | none => none
                              else if c3.toNat = 125 then some ([(key, v)], r4)
                              else none
                          | [] => none
                    else none
                | [] => none
          else none

/-- Parses the elements of a JSON array after the opening bracket. -/
def parseArrElems : Nat → List Char → Bool → Option (List Json × List Char)
  | 0, _, _ => none
  | fuel + 1, s, first =>
      match skipWs s with
      | [] => none
      | c :: rest =>
          if first ∧ c.toNat = 93 then some ([], rest)
          else
            match parseVal fuel (c :: rest) with
            | none => none
            | some (v, r1) =>
                match skipWs r1 with
                | c2 :: r2 =>
                    if c2 = ',' then
                      match parseArrElems fuel r2 false with
                      | some (elems, r3) => some (v :: elems, r3)
                      | none => none
                    else if c2.toNat = 93 then some ([v], r2)
                    else none
                | [] => none

end

/-- Model of `JSON.parse` on a list of characters: one JSON value followed only by
white space. -/
def jsonParse (s : List Char) : Option Json :=
  match parseVal (s.length + 1) s with
  | some (v, rest) => if skipWs rest = [] then some v else none
  | none => none

/-- True away from an opening brace. -/
def notOpenBrace (c : Char) : Bool := decide (c.toNat ≠ 123)

/-- True away from a closing brace. -/
def notCloseBrace (c : Char) : Bool := decide (c.toNat ≠ 125)

/-- The regex extraction `content.match(/\x7b[\s\S]*\x7d/)` of line 219: the
quantifier is greedy, so a match runs from the first opening brace of the
content to the last closing brace at or after it; `none` when there is no
such pair. -/
def greedyBraceSpan (s : List Char) : Option (List Char) :=
  match s.dropWhile notOpenBrace with
  | [] => none
  | c :: rest =>
      let t2 := (((c :: rest).reverse).dropWhile notCloseBrace).reverse
      if t2 = [] then none else some t2

/-- The first well-formed JSON object contained in a character list: the
parse from the earliest position at which an opening brace starts a valid
JSON value.  This is the specification-side notion used by the response
parsing requirement. -/
def firstJsonObject : List Char → Option Json
  | [] => none
  | c :: rest =>
      if c.toNat = 123 then
        match parseVal (rest.length + 2) (c :: rest) with
        | some (v, _) => some v
        | none => firstJsonObject rest
      else firstJsonObject rest

/-- The fail-safe verdict `{ isDuplicate: false, confidence: 0, matches: [] }`
returned on an empty candidate list or an unmatched response (lines 155 and
225). -/
def safeVerdictEmpty : Json :=
  Json.jobj [("isDuplicate".toList, Json.jbool false),
    ("confidence".toList, Json.jnum 0),
    ("matches".toList, Json.jarr [])]

/-- The catch-all verdict `{ isDuplicate: false, confidence: 0, error:
error.message }` (line 229). -/
def safeVerdictError (msg : String) : Json :=
  Json.jobj [("isDuplicate".toList, Json.jbool false),
    ("confidence".toList, Json.jnum 0),
    ("error".toList, Json.jstr msg.toList)]

/-- The error message attached when `JSON.parse` throws on the regex match;
the exact `SyntaxError` text is irrelevant to every property stated here. -/
def jsonSyntaxErrorMsg : String := "Unexpected token in JSON"

/-- Embedding of `aiDuplicateAnalysis` (`duplicateDetection.js` lines 153-231).  The IO
steps are abstracted as outcome parameters: `imageRead` is the result of
`fs.readFileSync(imagePath)` (success or thrown error), and `providerCall`
the combined outcome of the `axios.post` request and of the
`response.data.choices[0].message.content` access — any network failure,
timeout, non-2xx status or unexpected response shape throws and is modelled
as `Except.error` carrying the error message, while success yields the
response content string.  Every throw lands in the surrounding `try`/`catch`,
which returns the fail-safe error verdict; the function never rethrows. -/
def aiDuplicateAnalysis (existingReceipts : List MatchResult)
    (imageRead : Except String Unit) (providerCall : Except String (List Char)) : Json :=
  if existingReceipts.length = 0 then safeVerdictEmpty
  else
    match imageRead with
    | .error e => safeVerdictError e
    | .ok _ =>
        match providerCall with
        | .error e => safeVerdictError e
        | .ok content =>
            match greedyBraceSpan content with
            | some span =>
                match jsonParse span with
                | some v => v
                | none => safeVerdictError jsonSyntaxErrorMsg
            | none => safeVerdictEmpty

/-- Field lookup on a parsed JSON object. -/
def getField (j : Json) (k : String) : Option Json :=
  match j with
  | Json.jobj fields =>
      match fields.find? (fun p => p.1 == k.toList) with
      | some p => some p.2
      | none => none
  | _ => none

/-- The shape of the verdict object consumed by the upload workflow:
`isDuplicate`, `confidence` and `matchedReceiptId` as produced by the deep
analysis prompt contract. -/
structure AiVerdict where
  isDuplicate : Bool
  confidence : ℚ
  matchedReceiptId : Option Nat
  deriving DecidableEq

/-- The duplicate gate of the upload workflow (the `server.js` upload handler
as listed in `README.md` lines 519-545): `duplicateStatus` starts as
`'none'` with no link and confidence `0`; deep analysis runs only when a
potential duplicate exists and the top candidate's confidence is at least 80;
a thrown analysis is caught and leaves the status untouched; the verdict
upgrades the status to `'detected'` exactly when `aiAnalysis.isDuplicate` is
truthy and `aiAnalysis.confidence > 0.7`, linking
`aiAnalysis.matchedReceiptId || potentialDuplicates[0].id`.  Returns
`(duplicateStatus, duplicateOf, duplicateConfidence)`. -/
def uploadDuplicateGate (potentialDuplicates : List MatchResult)
    (analysis : Except String AiVerdict) : String × Option Nat × ℚ :=
  match potentialDuplicates with
  | [] => ("none", none, 0)
  | top :: _ =>
      if 80 ≤ top.confidence then
        match analysis with
        | .error _ => ("none", none, 0)
        | .ok v =>
            if v.isDuplicate ∧ (7 : ℚ) / 10 < v.confidence then
              ("detected", some (v.matchedReceiptId.getD top.id), v.confidence)
            else ("none", none, 0)
      else ("none", none, 0)

/-- UTF-16 code units of an ASCII string. -/
def strCodes (s : String) : List Nat := s.toList.map Char.toNat

/-- A concrete candidate receipt used to instantiate the theorems. -/
def nrEx : NewReceipt :=
  { amount := some 50
    date := some "2024-03-01"
    merchant := some (strCodes "Starbucks KLCC") }

/-- A concrete stored receipt matching `nrEx` on all three signals. -/
def rowEx : ReceiptRow :=
  { id := 7
    user_id := 3
    ocr_data := some
      { amount := some 50
        date := some "2024-03-01"
        merchant := some (strCodes "STARBUCKS KLCC ") }
    duplicate_of := none
    uploaded_at := 11
    status := "processed"
    file_path := "r7.jpg" }

/-- A stored receipt identical to `rowEx` except that it is already marked as
a duplicate of another receipt. -/
def rowDup : ReceiptRow :=
  { id := 9
    user_id := 3
    ocr_data := some
      { amount := some 50
        date := some "2024-03-01"
        merchant := some (strCodes "STARBUCKS KLCC ") }
    duplicate_of := some 7
    uploaded_at := 12
    status := "processed"
    file_path := "r9.jpg" }

/-- A candidate receipt with no extracted fields at all. -/
def nrNone : NewReceipt := { amount := none, date := none, merchant := none }

/-- A stored receipt with no OCR payload. -/
def rowNone : ReceiptRow :=
  { id := 2
    user_id := 4
    ocr_data := none
    duplicate_of := none
    uploaded_at := 0
    status := "processed"
    file_path := "x.jpg" }

theorem amountMatch_ex : amountMatch nrEx rowEx = true := by
  have h : normalizeAmount (some 50) = 50 := by
    norm_num [normalizeAmount, jsRound]
  unfold amountMatch
  rw [show nrEx.amount = some 50 from rfl,
    show (existingOcrOf rowEx).amount = some 50 from rfl, h]
  norm_num

theorem dateMatch_ex : dateMatch nrEx rowEx = true := by decide

theorem merchantSimilarity_ex : merchantSimilarityOf nrEx rowEx = 1 := rfl

theorem merchantMatch_ex : merchantMatch nrEx rowEx = true := by
  unfold merchantMatch
  rw [merchantSimilarity_ex]
  norm_num

theorem matchConfidence_ex : matchConfidence nrEx rowEx = 100 := by
  unfold matchConfidence
  rw [amountMatch_ex, dateMatch_ex, merchantMatch_ex]
  simp

theorem amountMatch_dup : amountMatch nrEx rowDup = true := by
  have h : normalizeAmount (some 50) = 50 := by
    norm_num [normalizeAmount, jsRound]
  unfold amountMatch
  rw [show nrEx.amount = some 50 from rfl,
    show (existingOcrOf rowDup).amount = some 50 from rfl, h]
  norm_num

theorem matchConfidence_dup : matchConfidence nrEx rowDup = 100 := by
  unfold matchConfidence
  rw [amountMatch_dup, show dateMatch nrEx rowDup = true from by decide,
    show merchantMatch nrEx rowDup = true from by
      unfold merchantMatch
      rw [show merchantSimilarityOf nrEx rowDup = 1 from rfl]
      norm_num]
  simp

/-- The match result for `rowEx`, used as a deep-analysis candidate. -/
def mEx : MatchResult := mkMatchResult nrEx rowEx

/-- C1: for every candidate receipt and every historical record scored by
`findPotentialDuplicates`, the aggregate confidence equals the sum of +40 for
`amountMatch`, +35 for `dateMatch` and +25 for `merchantMatch`
(similarity > 0.7); a `MatchResult` for a scored (not duplicate-marked)
record is emitted if and only if this sum is at least 60; consequently a
record matching on at most one signal has confidence at most 40 and is never
emitted. -/
theorem claim_C1 (nr : NewReceipt) (row : ReceiptRow) (rows : List ReceiptRow) :
    matchConfidence nr row =
      (if amountMatch nr row then 40 else 0) + (if dateMatch nr row then 35 else 0) +
        (if merchantMatch nr row then 25 else 0) ∧
    (row ∈ rows → row.duplicate_of = none →
      (mkMatchResult nr row ∈ findPotentialDuplicates nr rows ↔
        60 ≤ matchConfidence nr row)) ∧
    ((if amountMatch nr row then 1 else 0) + (if dateMatch nr row then 1 else 0) +
        (if merchantMatch nr row then 1 else 0) ≤ 1 →
      matchConfidence nr row ≤ 40 ∧
        mkMatchResult nr row ∉ findPotentialDuplicates nr rows) := by
  refine ⟨rfl, ?_, ?_⟩
  · intro hmem hnone
    rw [mem_findPotentialDuplicates]
    constructor
    · rintro ⟨r, _, _, hc, hmk⟩
      have hcf : (mkMatchResult nr row).confidence = (mkMatchResult nr r).confidence := by
        rw [hmk]
      have h1 : (mkMatchResult nr row).confidence = matchConfidence nr row := rfl
      have h2 : (mkMatchResult nr r).confidence = matchConfidence nr r := rfl
      omega
    · intro hc
      exact ⟨row, hmem, hnone, hc, rfl⟩
  · intro hsig
    have hle : matchConfidence nr row ≤ 40 := by
      unfold matchConfidence
      by_cases h1 : amountMatch nr row <;> by_cases h2 : dateMatch nr row <;>
        by_cases h3 : merchantMatch nr row <;>
        simp [h1, h2, h3] at hsig ⊢
    refine ⟨hle, ?_⟩
    intro hmem
    have h60 := confidence_of_mem_findPotentialDuplicates nr _ rows hmem
    have : (mkMatchResult nr row).confidence = matchConfidence nr row := rfl
    omega

/-- Closed instance of C1: a record matching on amount, date and merchant is
emitted. -/
theorem claim_C1_witness :
    mkMatchResult nrEx rowEx ∈ findPotentialDuplicates nrEx [rowEx] :=
  ((claim_C1 nrEx rowEx [rowEx]).2.1 (by simp) rfl).mpr
    (by rw [matchConfidence_ex]; omega)

/-- C7: a historical record whose duplicate back-reference (`duplicate_of`)
is set is never represented in the list returned by
`findPotentialDuplicates`, regardless of its score (assuming, as in the
database, that no other row carries its id without also being marked). -/
theorem claim_C7 (nr : NewReceipt) (rows : List ReceiptRow) (row : ReceiptRow) :
    row ∈ rows → row.duplicate_of ≠ none →
    (∀ r ∈ rows, r.id = row.id → r.duplicate_of ≠ none) →
    ∀ m ∈ findPotentialDuplicates nr rows, m.id ≠ row.id := by
  intro _ _ huniq m hm hid
  obtain ⟨r, hr, hnone, _, hmk⟩ := (mem_findPotentialDuplicates nr m rows).mp hm
  have hmid : m.id = r.id := by rw [hmk]; rfl
  exact huniq r hr (by omega) hnone

/-- Closed instance of C7: a perfectly matching but duplicate-marked record
is not returned. -/
theorem claim_C7_witness :
    mkMatchResult nrEx rowDup ∉ findPotentialDuplicates nrEx [rowDup] := by
  intro hmem
  have := claim_C7 nrEx [rowDup] rowDup (by simp) (by simp [rowDup])
    (by
      intro r hr _
      rw [List.mem_singleton] at hr
      rw [hr]
      simp [rowDup])
    _ hmem
  exact this rfl

/-- C8: the list returned by `findPotentialDuplicates` is sorted by
descending confidence (every adjacent pair is non-increasing), and elements
of equal confidence keep their stable order: filtering the output at any
confidence value gives exactly the filtered pre-sort collection, in
collection (historical-row) order. -/
theorem claim_C8 (nr : NewReceipt) (rows : List ReceiptRow) :
    List.Chain' (fun a b => b.confidence ≤ a.confidence)
      (findPotentialDuplicates nr rows) ∧
    ∀ c : Nat, (findPotentialDuplicates nr rows).filter (fun m => m.confidence == c) =
      (collectDuplicates nr rows).filter (fun m => m.confidence == c) := by
  constructor
  · exact chain'_sortByConfidenceDesc (collectDuplicates nr rows)
  · intro c
    exact filter_sortByConfidenceDesc c (collectDuplicates nr rows)

/-- C9: every emitted `MatchResult` has confidence in {60, 65, 75, 100} (the
only signal-weight sums reaching the 60 threshold) and a `merchantSimilarity`
in [0, 1]. -/
theorem claim_C9 (nr : NewReceipt) (rows : List ReceiptRow) (m : MatchResult) :
    m ∈ findPotentialDuplicates nr rows →
    (m.confidence = 60 ∨ m.confidence = 65 ∨ m.confidence = 75 ∨ m.confidence = 100) ∧
    0 ≤ m.merchantSimilarity ∧ m.merchantSimilarity ≤ 1 := by
  intro hm
  obtain ⟨row, _, _, hconf, hmk⟩ := (mem_findPotentialDuplicates nr m rows).mp hm
  subst hmk
  refine ⟨?_, ?_⟩
  · show matchConfidence nr row = 60 ∨ matchConfidence nr row = 65 ∨
      matchConfidence nr row = 75 ∨ matchConfidence nr row = 100
    unfold matchConfidence at hconf ⊢
    by_cases h1 : amountMatch nr row <;> by_cases h2 : dateMatch nr row <;>
      by_cases h3 : merchantMatch nr row <;>
      simp [h1, h2, h3] at hconf ⊢
  · show 0 ≤ merchantSimilarityOf nr row ∧ merchantSimilarityOf nr row ≤ 1
    exact stringSimilarity_mem_unit _ _

/-- Closed instance of C9 at a fully matching pair. -/
theorem claim_C9_witness :
    ((mkMatchResult nrEx rowEx).confidence = 60 ∨
      (mkMatchResult nrEx rowEx).confidence = 65 ∨
      (mkMatchResult nrEx rowEx).confidence = 75 ∨
      (mkMatchResult nrEx rowEx).confidence = 100) ∧
    0 ≤ (mkMatchResult nrEx rowEx).merchantSimilarity ∧
    (mkMatchResult nrEx rowEx).merchantSimilarity ≤ 1 :=
  claim_C9 nrEx [rowEx] _
    ((mem_findPotentialDuplicates nrEx _ [rowEx]).mpr
      ⟨rowEx, by simp, rfl, by rw [matchConfidence_ex]; omega, rfl⟩)

/-- C10: `normalizeAmount` maps an absent amount to 0, so a candidate with a
missing amount matched against a record whose amount is missing or zero
satisfies `amountMatch`, earns the "Same amount" reason and the +40
contribution. -/
theorem claim_C10 (nr : NewReceipt) (row : ReceiptRow) :
    normalizeAmount none = 0 ∧
    (nr.amount = none →
      ((existingOcrOf row).amount = none ∨ (existingOcrOf row).amount = some 0) →
      amountMatch nr row = true ∧ "Same amount" ∈ matchReasons nr row ∧
        40 ≤ matchConfidence nr row) := by
  have hz : normalizeAmount none = 0 := by
    norm_num [normalizeAmount, jsRound]
  have hz0 : normalizeAmount (some 0) = 0 := by
    norm_num [normalizeAmount, jsRound]
  refine ⟨hz, ?_⟩
  intro h1 h2
  have ham : amountMatch nr row = true := by
    unfold amountMatch
    rw [h1]
    rcases h2 with h2 | h2 <;> rw [h2]
    · rw [hz]; norm_num
    · rw [hz, hz0]; norm_num
  refine ⟨ham, ?_, ?_⟩
  · unfold matchReasons
    rw [ham]
    simp
  · unfold matchConfidence
    rw [ham]
    simp
    omega

/-- Closed instance of C10: two receipts with no amount at all match on
amount. -/
theorem claim_C10_witness :
    amountMatch nrNone rowNone = true ∧ "Same amount" ∈ matchReasons nrNone rowNone := by
  have h := (claim_C10 nrNone rowNone).2 rfl (Or.inl rfl)
  exact ⟨h.1, h.2.1⟩

/-- C2 counterexample: when both inputs are empty (so both are empty after
case-folding and trimming), `stringSimilarity` returns 1.0 through the
equal-strings branch, not the 0.0 the claim demands for an empty input. -/
theorem claim_C2_counterexample :
    jsNormalize ([] : List Nat) = [] ∧ stringSimilarity [] [] = 1 ∧
      stringSimilarity [] [] ≠ 0 := by
  refine ⟨rfl, stringSimilarity_self [], ?_⟩
  rw [stringSimilarity_self []]
  norm_num

/-- C2 (amended): `stringSimilarity` is symmetric; `similarity(a, a) = 1.0`
for every non-empty `a`; when the two normalised inputs differ and at least
one of them is empty after case-folding and trimming the result is 0.0; when
both normalise to empty the equal-strings branch fires first and the result
is 1.0. -/
theorem claim_C2_amended :
    (∀ a b : List Nat, stringSimilarity a b = stringSimilarity b a) ∧
    (∀ a : List Nat, a ≠ [] → stringSimilarity a a = 1) ∧
    (∀ a b : List Nat, (jsNormalize a = [] ∨ jsNormalize b = []) →
      jsNormalize a ≠ jsNormalize b → stringSimilarity a b = 0) ∧
    (∀ a b : List Nat, jsNormalize a = [] → jsNormalize b = [] →
      stringSimilarity a b = 1) := by
  refine ⟨stringSimilarity_comm, fun a _ => stringSimilarity_self a,
    stringSimilarity_zero_of_empty, ?_⟩
  intro a b h1 h2
  unfold stringSimilarity
  rw [if_pos (by rw [h1, h2])]

/-- Closed instance of C2 (amended): symmetry, reflexivity and the one-sided
empty case at concrete strings. -/
theorem claim_C2_witness :
    stringSimilarity (strCodes "ab") (strCodes "ba") =
      stringSimilarity (strCodes "ba") (strCodes "ab") ∧
    stringSimilarity (strCodes "ab") (strCodes "ab") = 1 ∧
    stringSimilarity (strCodes " ") (strCodes "x") = 0 :=
  ⟨claim_C2_amended.1 _ _,
    claim_C2_amended.2.1 _ (by decide),
    claim_C2_amended.2.2.1 _ _ (Or.inl (by decide)) (by decide)⟩

/-- C6: the dynamic program inside `stringSimilarity` does not compute the
classic Levenshtein distance.  The assignment `costs[longer.length] =
lastValue` after the inner loop is executed for `i = 0` as well (the
canonical version of this row-optimised algorithm guards it with `i > 0`),
so row 0 ends `[0, 1, ..., L-1, 0]` and the corrupted 0 leaks into the last
column whenever the strings have different lengths.  At the failing input
`("a", "bc")` the code returns similarity 1/2 (distance 1) where the classic
distance is 2 and the claimed value is 0. -/
theorem claim_C6 :
    stringSimilarity (strCodes "a") (strCodes "bc") = 1 / 2 ∧
    lev (jsNormalize (strCodes "a")) (jsNormalize (strCodes "bc")) = 2 ∧
    ((max (jsNormalize (strCodes "a")).length (jsNormalize (strCodes "bc")).length : ℚ) -
        (lev (jsNormalize (strCodes "a")) (jsNormalize (strCodes "bc")) : ℚ)) /
      (max (jsNormalize (strCodes "a")).length (jsNormalize (strCodes "bc")).length : ℚ)
        = 0 := by
  have h1 : jsNormalize (strCodes "a") = [97] := by decide
  have h2 : jsNormalize (strCodes "bc") = [98, 99] := by decide
  have hlev : lev [97] [98, 99] = 2 := by
    norm_num [lev]
  refine ⟨?_, ?_, ?_⟩
  · rw [stringSimilarity, h1, h2]
    norm_num
    rw [show levDP [97] [98, 99] = 1 from by decide]
    norm_num
  · rw [h1, h2, hlev]
  · rw [h1, h2, hlev]
    norm_num

theorem dropWhile_append_all (p : Char → Bool) (l1 l2 : List Char)
    (h : ∀ c ∈ l1, p c = true) : (l1 ++ l2).dropWhile p = l2.dropWhile p := by
  induction l1 with
  | nil => simp
  | cons a l1 IH =>
      rw [List.cons_append, List.dropWhile_cons, h a (by simp), IH]
      · simp
      · intro c hc
        exact h c (by simp [hc])

theorem greedyBraceSpan_noise (pre span post : List Char)
    (hpre : ∀ c ∈ pre, notOpenBrace c = true)
    (hpost : ∀ c ∈ post, notCloseBrace c = true)
    (s1 : List Char) (hs1 : span = Char.ofNat 123 :: s1)
    (s2 : List Char) (hs2 : span = s2 ++ [Char.ofNat 125]) :
    greedyBraceSpan (pre ++ span ++ post) = some span := by
  have hd1 : (pre ++ span ++ post).dropWhile notOpenBrace = span ++ post := by
    rw [List.append_assoc, dropWhile_append_all notOpenBrace pre (span ++ post) hpre]
    rw [hs1, List.cons_append, List.dropWhile_cons]
    rw [show notOpenBrace (Char.ofNat 123) = false from by decide]
    simp [← List.cons_append, ← hs1]
  have hrev : ((Char.ofNat 123 :: (s1 ++ post)).reverse.dropWhile notCloseBrace).reverse
      = span := by
    rw [← List.cons_append, ← hs1, List.reverse_append]
    rw [dropWhile_append_all notCloseBrace post.reverse span.reverse
      (by intro c hc; rw [List.mem_reverse] at hc; exact hpost c hc)]
    rw [hs2, List.reverse_append, List.reverse_singleton, List.singleton_append]
    rw [List.dropWhile_cons]
    rw [show notCloseBrace (Char.ofNat 125) = false from by decide]
    simp [← hs2]
  unfold greedyBraceSpan
  rw [hd1, hs1, List.cons_append]
  show (if ((Char.ofNat 123 :: (s1 ++ post)).reverse.dropWhile notCloseBrace).reverse = []
    then none
    else some ((Char.ofNat 123 :: (s1 ++ post)).reverse.dropWhile notCloseBrace).reverse)
      = some (Char.ofNat 123 :: s1)
  rw [hrev, hs1, if_neg (by simp)]

/-- Evaluation of `aiDuplicateAnalysis` on a successful image read and
provider call with a non-empty candidate list. -/
theorem aiDuplicateAnalysis_ok (rs : List MatchResult) (hrs : rs.length ≠ 0)
    (content : List Char) :
    aiDuplicateAnalysis rs (.ok ()) (.ok content) =
      match greedyBraceSpan content with
      | some span =>
          (match jsonParse span with
          | some v => v
          | none => safeVerdictError jsonSyntaxErrorMsg)
      | none => safeVerdictEmpty := by
  unfold aiDuplicateAnalysis
  rw [if_neg hrs]

/-- Evaluation of `aiDuplicateAnalysis` on a failed image read. -/
theorem aiDuplicateAnalysis_imgErr (rs : List MatchResult) (hrs : rs.length ≠ 0)
    (e : String) (call : Except String (List Char)) :
    aiDuplicateAnalysis rs (.error e) call = safeVerdictError e := by
  unfold aiDuplicateAnalysis
  rw [if_neg hrs]

/-- Evaluation of `aiDuplicateAnalysis` on a failed provider call. -/
theorem aiDuplicateAnalysis_callErr (rs : List MatchResult) (hrs : rs.length ≠ 0)
    (e : String) :
    aiDuplicateAnalysis rs (.ok ()) (.error e) = safeVerdictError e := by
  unfold aiDuplicateAnalysis
  rw [if_neg hrs]

/-- The body used to refute C3: extraneous text around a first well-formed
JSON object that itself contains a later closing brace. -/
def c3Body : List Char := "x \x7b\"isDuplicate\":true\x7d y \x7d".toList

/-- C3 counterexample: the body `x {"isDuplicate":true} y }` (braces spelled
here in words) contains the well-formed first JSON object
`{"isDuplicate":true}`, but the greedy regex spans up to the final stray
closing brace, `JSON.parse` throws on that span, and `aiDuplicateAnalysis`
returns the fail-safe error verdict instead of the first object's parse. -/
theorem claim_C3_counterexample :
    firstJsonObject c3Body = some (Json.jobj [("isDuplicate".toList, Json.jbool true)]) ∧
    aiDuplicateAnalysis [mEx] (.ok ()) (.ok c3Body) =
      safeVerdictError jsonSyntaxErrorMsg ∧
    getField (aiDuplicateAnalysis [mEx] (.ok ()) (.ok c3Body)) "isDuplicate" =
      some (Json.jbool false) ∧
    aiDuplicateAnalysis [mEx] (.ok ()) (.ok c3Body) ≠
      Json.jobj [("isDuplicate".toList, Json.jbool true)] := by
  refine ⟨rfl, rfl, rfl, ?_⟩
  intro h
  have h2 : (some (Json.jbool false) : Option Json) = some (Json.jbool true) := by
    calc (some (Json.jbool false) : Option Json)
        = getField (aiDuplicateAnalysis [mEx] (.ok ()) (.ok c3Body)) "isDuplicate" := rfl
      _ = getField (Json.jobj [("isDuplicate".toList, Json.jbool true)]) "isDuplicate" := by
          rw [h]
      _ = some (Json.jbool true) := rfl
  simp at h2

/-- C3 (amended): the response parsing extracts the span from the first
opening brace to the last closing brace of the body (so when a single JSON
object is surrounded by brace-free extraneous text, exactly that first
well-formed object is extracted) and returns its parse when the span is
valid JSON; otherwise — including when the greedy span strays past the first
object — it fails safe with an `isDuplicate: false`, `confidence: 0`
verdict. -/
theorem claim_C3_amended :
    (∀ pre span post : List Char,
      (∀ c ∈ pre, c.toNat ≠ 123) → (∀ c ∈ post, c.toNat ≠ 125) →
      (∃ s1, span = Char.ofNat 123 :: s1) → (∃ s2, span = s2 ++ [Char.ofNat 125]) →
      greedyBraceSpan (pre ++ span ++ post) = some span) ∧
    (∀ (rs : List MatchResult) (content span : List Char) (v : Json), rs ≠ [] →
      greedyBraceSpan content = some span → jsonParse span = some v →
      aiDuplicateAnalysis rs (.ok ()) (.ok content) = v) ∧
    (∀ (rs : List MatchResult) (content : List Char), rs ≠ [] →
      (greedyBraceSpan content = none ∨
        ∃ span, greedyBraceSpan content = some span ∧ jsonParse span = none) →
      getField (aiDuplicateAnalysis rs (.ok ()) (.ok content)) "isDuplicate" =
          some (Json.jbool false) ∧
      getField (aiDuplicateAnalysis rs (.ok ()) (.ok content)) "confidence" =
          some (Json.jnum 0)) := by
  refine ⟨?_, ?_, ?_⟩
  · intro pre span post hpre hpost h1 h2
    obtain ⟨s1, hs1⟩ := h1
    obtain ⟨s2, hs2⟩ := h2
    exact greedyBraceSpan_noise pre span post
      (by intro c hc; unfold notOpenBrace; simpa using hpre c hc)
      (by intro c hc; unfold notCloseBrace; simpa using hpost c hc)
      s1 hs1 s2 hs2
  · intro rs content span v hrs hspan hparse
    rw [aiDuplicateAnalysis_ok rs (by simpa [List.length_eq_zero] using hrs) content]
    rw [hspan]
    show (match jsonParse span with
      | some w => w
      | none => safeVerdictError jsonSyntaxErrorMsg) = v
    rw [hparse]
  · intro rs content hrs hfail
    rw [aiDuplicateAnalysis_ok rs (by simpa [List.length_eq_zero] using hrs) content]
    rcases hfail with hnone | ⟨span, hspan, hparse⟩
    · rw [hnone]
      exact ⟨rfl, rfl⟩
    · rw [hspan]
      refine ⟨?_, ?_⟩ <;>
      · show getField (match jsonParse span with
          | some w => w
          | none => safeVerdictError jsonSyntaxErrorMsg) _ = _
        rw [hparse]
        rfl

/-- Closed instance of C3 (amended): a brace-free-noise body yields the parse
of its single JSON object; a brace-less body yields the safe verdict. -/
theorem claim_C3_witness :
    aiDuplicateAnalysis [mEx] (.ok ()) (.ok ("note \x7b\"isDuplicate\":true\x7d ok".toList)) =
      Json.jobj [("isDuplicate".toList, Json.jbool true)] ∧
    greedyBraceSpan ("a ".toList ++ "\x7b\"x\":null\x7d".toList ++ " b".toList) =
      some ("\x7b\"x\":null\x7d".toList) ∧
    getField (aiDuplicateAnalysis [mEx] (.ok ()) (.ok ("no json here".toList)))
      "isDuplicate" = some (Json.jbool false) := by
  refine ⟨?_, ?_, ?_⟩
  · exact claim_C3_amended.2.1 [mEx] _ ("\x7b\"isDuplicate\":true\x7d".toList) _
      (by simp) rfl rfl
  · exact claim_C3_amended.1 ("a ".toList) _ (" b".toList)
      (by decide) (by decide)
      ⟨"\"x\":null\x7d".toList, by decide⟩ ⟨"\x7b\"x\":null".toList, by decide⟩
  · exact (claim_C3_amended.2.2 [mEx] ("no json here".toList) (by simp) (Or.inl rfl)).1

/-- C4: `aiDuplicateAnalysis` never lets a failure escape: for every failed
image read, every provider error (network, timeout, malformed response
structure) and every response whose body yields no parseable JSON span, it
returns a verdict with `isDuplicate` false and `confidence` 0. -/
theorem claim_C4 (rs : List MatchResult) (img : Except String Unit)
    (call : Except String (List Char)) :
    ((∃ e, img = .error e) ∨ (∃ e, call = .error e) ∨
      (∃ content, call = .ok content ∧
        (greedyBraceSpan content = none ∨
          ∃ span, greedyBraceSpan content = some span ∧ jsonParse span = none))) →
    getField (aiDuplicateAnalysis rs img call) "isDuplicate" = some (Json.jbool false) ∧
    getField (aiDuplicateAnalysis rs img call) "confidence" = some (Json.jnum 0) := by
  intro hfail
  by_cases hlen : rs.length = 0
  · have : aiDuplicateAnalysis rs img call = safeVerdictEmpty := by
      unfold aiDuplicateAnalysis
      rw [if_pos hlen]
    rw [this]
    exact ⟨rfl, rfl⟩
  · rcases hfail with ⟨e, himg⟩ | ⟨e, hcall⟩ | ⟨content, hcall, hfail2⟩
    · rw [himg, aiDuplicateAnalysis_imgErr rs hlen e call]
      exact ⟨rfl, rfl⟩
    · cases img with
      | error e2 =>
          rw [aiDuplicateAnalysis_imgErr rs hlen e2 call]
          exact ⟨rfl, rfl⟩
      | ok u =>
          cases u
          rw [hcall, aiDuplicateAnalysis_callErr rs hlen e]
          exact ⟨rfl, rfl⟩
    · cases img with
      | error e2 =>
          rw [aiDuplicateAnalysis_imgErr rs hlen e2 call]
          exact ⟨rfl, rfl⟩
      | ok u =>
          cases u
          rw [hcall, aiDuplicateAnalysis_ok rs hlen content]
          rcases hfail2 with hnone | ⟨span, hspan, hparse⟩
          · rw [hnone]
            exact ⟨rfl, rfl⟩
          · rw [hspan]
            refine ⟨?_, ?_⟩ <;>
            · show getField (match jsonParse span with
                | some w => w
                | none => safeVerdictError jsonSyntaxErrorMsg) _ = _
              rw [hparse]
              rfl

/-- Closed instance of C4: an unreadable image file yields the safe
verdict. -/
theorem claim_C4_witness :
    getField (aiDuplicateAnalysis [mEx] (.error "ENOENT") (.ok [])) "isDuplicate" =
      some (Json.jbool false) ∧
    getField (aiDuplicateAnalysis [mEx] (.error "ENOENT") (.ok [])) "confidence" =
      some (Json.jnum 0) :=
  claim_C4 [mEx] (.error "ENOENT") (.ok []) (Or.inl ⟨"ENOENT", rfl⟩)

/-- Evaluation of the gate on a delivered verdict with a non-empty candidate
list. -/
theorem uploadDuplicateGate_cons_ok (top : MatchResult) (rest : List MatchResult)
    (v : AiVerdict) :
    uploadDuplicateGate (top :: rest) (.ok v) =
      if 80 ≤ top.confidence then
        (if v.isDuplicate ∧ (7 : ℚ) / 10 < v.confidence then
          ("detected", some (v.matchedReceiptId.getD top.id), v.confidence)
        else ("none", none, 0))
      else ("none", none, 0) := rfl

/-- Evaluation of the gate when the analysis throws. -/
theorem uploadDuplicateGate_cons_err (top : MatchResult) (rest : List MatchResult)
    (e : String) :
    uploadDuplicateGate (top :: rest) (.error e) = ("none", none, 0) := by
  show (if 80 ≤ top.confidence then (("none", none, 0) : String × Option Nat × ℚ)
    else ("none", none, 0)) = ("none", none, 0)
  exact ite_self _

/-- C5: with the deep analysis triggered (non-empty candidates, top
confidence at least 80) and a verdict delivered, the upload workflow sets the
duplicate status to `detected` exactly when the verdict has `isDuplicate`
true and confidence strictly above 0.7; a confidence of exactly 0.7 never
confirms; and every `detected` status arises from such a verdict. -/
theorem claim_C5 (pd : List MatchResult) (top : MatchResult) (rest : List MatchResult)
    (v : AiVerdict) :
    (pd = top :: rest → 80 ≤ top.confidence →
      ((uploadDuplicateGate pd (.ok v)).1 = "detected" ↔
        (v.isDuplicate = true ∧ (7 : ℚ) / 10 < v.confidence))) ∧
    (v.confidence = 7 / 10 → (uploadDuplicateGate pd (.ok v)).1 ≠ "detected") ∧
    (∀ call : Except String AiVerdict, (uploadDuplicateGate pd call).1 = "detected" →
      ∃ w, call = .ok w ∧ w.isDuplicate = true ∧ (7 : ℚ) / 10 < w.confidence) := by
  refine ⟨?_, ?_, ?_⟩
  · intro hpd h80
    subst hpd
    rw [uploadDuplicateGate_cons_ok, if_pos h80]
    by_cases hv : (v.isDuplicate ∧ (7 : ℚ) / 10 < v.confidence)
    · rw [if_pos hv]
      exact ⟨fun _ => ⟨hv.1, hv.2⟩, fun _ => rfl⟩
    · rw [if_neg hv]
      constructor
      · intro habs
        simp at habs
      · intro hc
        exact absurd ⟨hc.1, hc.2⟩ hv
  · intro h07
    cases pd with
    | nil =>
        show (("none", none, 0) : String × Option Nat × ℚ).1 ≠ "detected"
        simp
    | cons t ts =>
        rw [uploadDuplicateGate_cons_ok]
        by_cases h80 : 80 ≤ t.confidence
        · rw [if_pos h80]
          by_cases hv : (v.isDuplicate ∧ (7 : ℚ) / 10 < v.confidence)
          · exact absurd hv.2 (by rw [h07]; exact lt_irrefl _)
          · rw [if_neg hv]
            simp
        · rw [if_neg h80]
          simp
  · intro call hdet
    cases pd with
    | nil =>
        have hnil : uploadDuplicateGate [] call = ("none", none, 0) := rfl
        rw [hnil] at hdet
        simp at hdet
    | cons t ts =>
        cases call with
        | error e =>
            rw [uploadDuplicateGate_cons_err] at hdet
            simp at hdet
        | ok w =>
            rw [uploadDuplicateGate_cons_ok] at hdet
            by_cases h80 : 80 ≤ t.confidence
            · rw [if_pos h80] at hdet
              by_cases hw : (w.isDuplicate ∧ (7 : ℚ) / 10 < w.confidence)
              · exact ⟨w, rfl, hw.1, hw.2⟩
              · rw [if_neg hw] at hdet
                simp at hdet
            · rw [if_neg h80] at hdet
              simp at hdet

/-- Closed instance of C5: confidence 0.8 confirms, exactly 0.7 does not. -/
theorem claim_C5_witness :
    (uploadDuplicateGate [mEx] (.ok ⟨true, 4 / 5, none⟩)).1 = "detected" ∧
    (uploadDuplicateGate [mEx] (.ok ⟨true, 7 / 10, none⟩)).1 ≠ "detected" := by
  constructor
  · exact ((claim_C5 [mEx] mEx [] ⟨true, 4 / 5, none⟩).1 rfl
      (by
        show 80 ≤ (mkMatchResult nrEx rowEx).confidence
        rw [show (mkMatchResult nrEx rowEx).confidence = matchConfidence nrEx rowEx from rfl,
          matchConfidence_ex]
        omega)).mpr ⟨rfl, by norm_num⟩
  · exact (claim_C5 [mEx] mEx [] ⟨true, 7 / 10, none⟩).2.1 rfl

end EE
